import Mathlib

/-!
Verification of the Syncify cross-catalog track-matching and
playlist-reconciliation engine.

The Python sources `app/utils/track_matcher.py`, `app/services/sync_service.py`
and `app/models/track.py` are shallowly embedded below.  Conventions of the
embedding:

* Python strings are Lean `String`s (processed as `List Char` where regular
  expressions are involved); strings are assumed newline-free, so the regex
  constructs `.` and a final `$` are read as "any char" and "end of string".
* Python floats are modelled as exact rationals (`ℚ`).
* Python `Optional[T]` is `Option T`; Python truthiness of an optional string
  is "present and non-empty", of an optional int "present and non-zero".
* Fallible collaborator calls (catalog services) return `Except String _`;
  a Python `try/except` placement is reproduced by where the `Except` value
  is caught.
* The fuzzywuzzy library is an external dependency (not repository code);
  its two ratio functions are therefore parameters of the embedding
  (structure `Fuzz`), and theorems quantify over them.
* Side effects relevant to the specification (destination-service calls and
  progress-callback invocations) are made observable as explicit event lists
  threaded through the embedding.
-/

/-- Characters treated as whitespace by Python regex `\s` and `str.strip`
(ASCII fragment). -/
def isPyWS (c : Char) : Bool :=
  c = ' ' || c = '\t' || c = '\n' || c = '\x0b' || c = '\x0c' || c = '\r'

/-- `startsWithChars needle hay`: `needle` is a prefix of `hay`. -/
def startsWithChars : List Char → List Char → Bool
  | [], _ => true
  | _ :: _, [] => false
  | a :: as, b :: bs => a = b && startsWithChars as bs

/-- `startsWithCI kw hay`: the lowercase word `kw` is a prefix of `hay`,
compared case-insensitively (regex `re.IGNORECASE`). -/
def startsWithCI : List Char → List Char → Bool
  | [], _ => true
  | _ :: _, [] => false
  | a :: as, b :: bs => a = b.toLower && startsWithCI as bs

/-- Substring containment, as Python `needle in hay`. -/
def listInfix (needle : List Char) : List Char → Bool
  | [] => startsWithChars needle []
  | hay@(_ :: rest) => startsWithChars needle hay || listInfix needle rest

/-- Substring containment on strings (Python `in` on `str`). -/
def containsSub (needle hay : String) : Bool :=
  listInfix needle.toList hay.toList

/-- One pass of Python `re.sub(r'\s+', ' ', s)`: every maximal whitespace run
becomes a single space.  The flag records whether we are inside a run. -/
def collapseGo : Bool → List Char → List Char
  | _, [] => []
  | inRun, c :: rest =>
    if isPyWS c then
      if inRun then collapseGo true rest else ' ' :: collapseGo true rest
    else c :: collapseGo false rest

def collapseWS (l : List Char) : List Char := collapseGo false l

/-- Python `str.strip()` on char lists. -/
def stripChars (l : List Char) : List Char :=
  ((l.dropWhile isPyWS).reverse.dropWhile isPyWS).reverse

/-- The final normalisation step shared by both cleaning functions:
`re.sub(r'\s+', ' ', s).strip()`. -/
def collapseStrip (l : List Char) : List Char := stripChars (collapseWS l)

/-- Match of the pattern `\s*\([^)]*\)\s*` anchored at the head of `l`
(`open`/`close` instantiate parenthesis or bracket).  On success returns the
input with the matched region removed from the front. -/
def matchDelimAt (opn cls : Char) (l : List Char) : Option (List Char) :=
  match (l.dropWhile isPyWS) with
  | c :: r2 =>
    if c = opn then
      match r2.dropWhile (fun d => d ≠ cls) with
      | d :: r4 => if d = cls then some (r4.dropWhile isPyWS) else none
      | [] => none
    else none
  | [] => none

/-- Python `re.sub(r'\s*\([^)]*\)\s*', '', s)` (resp. the bracket variant):
scan left to right, removing each leftmost match.  Fuel is the remaining
length, enough because each step consumes at least one character. -/
def subDelimGo (opn cls : Char) : Nat → List Char → List Char
  | 0, l => l
  | _ + 1, [] => []
  | fuel + 1, c :: rest =>
    match matchDelimAt opn cls (c :: rest) with
    | some r => subDelimGo opn cls fuel r
    | none => c :: subDelimGo opn cls fuel rest

def subParens (l : List Char) : List Char := subDelimGo '(' ')' l.length l

def subBrackets (l : List Char) : List Char := subDelimGo '[' ']' l.length l

/-- The version-indicator keyword alternation of `_clean_track_name`
(lowercase; matching is case-insensitive). -/
def versionKeywords : List (List Char) :=
  ["remaster".toList, "remastered".toList, "remix".toList, "acoustic".toList,
   "live".toList, "radio edit".toList, "extended".toList, "instrumental".toList]

def startsWithAnyKw (kws : List (List Char)) (l : List Char) : Bool :=
  kws.any (fun k => startsWithCI k l)

/-- Match of `\s*-\s*(remaster|...|instrumental).*$` anchored at the head:
optional whitespace, a dash, optional whitespace, then a keyword. -/
def matchVersionDashAt (l : List Char) : Bool :=
  match l.dropWhile isPyWS with
  | '-' :: r => startsWithAnyKw versionKeywords (r.dropWhile isPyWS)
  | _ => false

/-- Match of `\s*(remaster|...|instrumental).*$` anchored at the head. -/
def matchVersionBareAt (l : List Char) : Bool :=
  startsWithAnyKw versionKeywords (l.dropWhile isPyWS)

/-- Match of `\s*\d{4}\s*(remaster|remastered).*$` anchored at the head. -/
def matchVersionYearAt (l : List Char) : Bool :=
  match l.dropWhile isPyWS with
  | d1 :: d2 :: d3 :: d4 :: r =>
    d1.isDigit && d2.isDigit && d3.isDigit && d4.isDigit &&
      startsWithAnyKw ["remaster".toList, "remastered".toList] (r.dropWhile isPyWS)
  | _ => false

/-- `re.sub(p, '', s)` for a pattern ending in `.*$`: truncate the string at
the leftmost position where `matchAt` holds. -/
def truncAt (matchAt : List Char → Bool) : List Char → List Char
  | [] => []
  | c :: rest => if matchAt (c :: rest) then [] else c :: truncAt matchAt rest

/-- `TrackMatcher._clean_track_name`. -/
def cleanTrackName (s : String) : String :=
  if s = "" then ""
  else
    let l := s.toList
    let l := subParens l
    let l := subBrackets l
    let l := truncAt matchVersionDashAt l
    let l := truncAt matchVersionBareAt l
    let l := truncAt matchVersionYearAt l
    String.mk (collapseStrip l)

/-- The featured-artist keyword alternation of `_clean_artist_name`. -/
def featKeywords : List (List Char) :=
  ["feat.".toList, "featuring".toList, "ft.".toList, "with".toList]

/-- Match of `\s*(feat\.|featuring|ft\.|with)\s+.*$` anchored at the head:
optional whitespace, a keyword, then at least one whitespace character. -/
def matchFeatAt (l : List Char) : Bool :=
  let r := l.dropWhile isPyWS
  featKeywords.any (fun k =>
    startsWithCI k r &&
      match r.drop k.length with
      | c :: _ => isPyWS c
      | [] => false)

/-- `re.sub(r'^The\s+', '', s, flags=re.IGNORECASE)`: drop a leading "The"
together with the whitespace run after it. -/
def dropLeadingThe (l : List Char) : List Char :=
  match l with
  | t :: h :: e :: rest =>
    if t.toLower = 't' && h.toLower = 'h' && e.toLower = 'e' then
      match rest with
      | c :: _ => if isPyWS c then rest.dropWhile isPyWS else l
      | [] => l
    else l
  | _ => l

/-- `TrackMatcher._clean_artist_name`. -/
def cleanArtistName (s : String) : String :=
  if s = "" then ""
  else
    let l := s.toList
    let l := truncAt matchFeatAt l
    let l := dropLeadingThe l
    String.mk (collapseStrip l)

/-- Python truthiness of an `Optional[str]`. -/
def optStrTruthy : Option String → Bool
  | none => false
  | some s => decide (s ≠ "")

/-- Python truthiness of an `Optional[int]`. -/
def optIntTruthy : Option Int → Bool
  | none => false
  | some d => decide (d ≠ 0)

/-- Python `a or b` for an optional string `a` with string default `b`
(empty strings are falsy). -/
def strOr (a : Option String) (b : String) : String :=
  match a with
  | some s => if s = "" then b else s
  | none => b

/-- Python word character (`\w`, ASCII fragment). -/
def isWordChar (c : Char) : Bool := c.isAlphanum || c = '_'

/-- Match of `\b(19|20)\d{2}\b.*hits` anchored after `prev` (the character
just before the current position, `none` at string start). -/
def matchYearHitsAt (prev : Option Char) (l : List Char) : Bool :=
  match l with
  | d1 :: d2 :: d3 :: d4 :: r =>
    (match prev with | none => true | some p => !isWordChar p) &&
    ((d1 = '1' && d2 = '9') || (d1 = '2' && d2 = '0')) &&
    d3.isDigit && d4.isDigit &&
    (match r with | [] => true | c :: _ => !isWordChar c) &&
    listInfix "hits".toList r
  | _ => false

def yearHitsGo (prev : Option Char) : List Char → Bool
  | [] => false
  | c :: rest => matchYearHitsAt prev (c :: rest) || yearHitsGo (some c) rest

/-- Python `re.search(r'\b(19|20)\d{2}\b.*hits', s)` as a Boolean. -/
def yearHits (s : String) : Bool := yearHitsGo none s.toList

/-- The two similarity functions of the external fuzzywuzzy library
(`fuzz.ratio`, `fuzz.token_sort_ratio`), parameters of the embedding. -/
structure Fuzz where
  ratio : String → String → ℚ
  token_sort_ratio : String → String → ℚ

/-- `app/models/track.py` `Track`.  Image-descriptor dictionaries do not
occur in tracks; `external_ids` is an association list. -/
structure Track where
  id : String
  name : String
  artist : String
  album : String
  duration_ms : Option Int := none
  isrc : Option String := none
  uri : Option String := none
  external_ids : Option (List (String × String)) := none
  album_type : Option String := none
deriving DecidableEq, Repr

/-- `app/models/track.py` `Playlist` (image descriptors abstracted as
strings). -/
structure Playlist where
  id : String
  name : String
  description : Option String := none
  track_count : Nat := 0
  images : Option (List String) := none
  owner : Option String := none
deriving DecidableEq, Repr

/-- `app/models/track.py` `MatchResult`. -/
structure MatchResult where
  source_track : Track
  destination_track : Option Track := none
  match_confidence : ℚ := 0
  match_method : Option String := none
deriving DecidableEq, Repr

/-- `app/models/track.py` `SyncResult`.  An unmatched-track descriptor is the
(name, artist, album) triple built in `sync_playlist`. -/
structure SyncResult where
  source_playlist : Option Playlist := none
  destination_playlist : Option Playlist := none
  source_service : String
  destination_service : String
  total_tracks : Nat := 0
  matched_tracks : Nat := 0
  unmatched_tracks : List (String × String × String) := []
  errors : List String := []
  start_time : Int
  end_time : Option Int := none
  sync_mode : String := "create"
  duration : Option Int := none
deriving DecidableEq, Repr

/-- Observable calls made to the destination catalog service. -/
inductive DestCall
  | searchByIsrc (isrc : String)
  | searchTrack (query : String) (limit : Nat)
  | findPlaylistByName (name : String)
  | getPlaylistTracks (id : String)
  | addTracks (id : String) (trackIds : List String)
  | createPlaylist (name description : String) (trackIds : List String)
deriving DecidableEq, Repr

/-- The destination catalog-service capability set.  `search_by_isrc` is the
optional capability probed with `hasattr`; `none` models its absence. -/
structure DestService where
  service_name : String
  search_by_isrc : Option (String → Except String (List Track)) := none
  search_track : String → Nat → Except String (List Track)
  find_playlist_by_name : String → Except String (Option Playlist)
  get_playlist_tracks : String → Except String (List Track)
  add_tracks_to_playlist : String → List String → Except String Playlist
  create_playlist : String → String → List String → Except String Playlist

/-- The source catalog-service capability subset used by `sync_playlist`. -/
structure SrcService where
  service_name : String
  get_playlist_details : String → Except String Playlist
  get_playlist_tracks : String → Except String (List Track)

/-- Fixed matcher thresholds (`TrackMatcher.__init__`). -/
def isrcThreshold : ℚ := 100

def fuzzyThreshold : ℚ := 85

def exactThreshold : ℚ := 95

/-- Compilation keyword list of `_score_isrc_candidate`. -/
def compKeywordsIsrc : List String :=
  ["hits", "greatest", "best of", "collection", "compilation",
   "anthology", "essentials", "ultimate", "complete", "now that\x27s",
   "various artists", "soundtrack", "tribute", "covers"]

/-- Compilation keyword list of `_calculate_confidence`. -/
def compKeywordsConf : List String :=
  ["hits", "greatest", "best of", "collection", "compilation",
   "anthology", "essentials", "ultimate", "complete", "now",
   "various artists", "soundtrack", "tribute", "covers"]

def anyKeywordIn (kws : List String) (s : String) : Bool :=
  kws.any (fun k => containsSub k s)

/-- `TrackMatcher._score_isrc_candidate`. -/
def scoreIsrcCandidate (F : Fuzz) (s c : Track) : ℚ :=
  let score : ℚ := 0
  let score := score +
    (if s.album ≠ "" && c.album ≠ "" then
      F.ratio s.album.toLower c.album.toLower * (5 / 10)
    else 0)
  let score := score +
    (match c.album_type with
     | some t =>
       if t = "" then 0
       else if t = "album" then 20
       else if t = "single" then 10
       else if t = "compilation" then -30
       else 0
     | none => 0)
  let score := score +
    (if c.album ≠ "" then
      (if anyKeywordIn compKeywordsIsrc c.album.toLower then -25 else 0) +
      (if yearHits c.album.toLower then -15 else 0)
    else 0)
  let score := score +
    (if optIntTruthy s.duration_ms && optIntTruthy c.duration_ms then
      let d := |s.duration_ms.getD 0 - c.duration_ms.getD 0|
      if d ≤ 1000 then 5 else if d ≤ 3000 then 2 else 0
    else 0)
  score

/-- `TrackMatcher._calculate_confidence`. -/
def calcConfidence (F : Fuzz) (s c : Track) : ℚ :=
  let source_name := cleanTrackName s.name
  let candidate_name := cleanTrackName c.name
  let source_artist := cleanArtistName s.artist
  let candidate_artist := cleanArtistName c.artist
  let name_ratio := F.ratio source_name.toLower candidate_name.toLower
  let artist_ratio := F.ratio source_artist.toLower candidate_artist.toLower
  let name_token_ratio := F.token_sort_ratio source_name.toLower candidate_name.toLower
  let artist_token_ratio := F.token_sort_ratio source_artist.toLower candidate_artist.toLower
  let final_name_ratio := max name_ratio name_token_ratio
  let final_artist_ratio := max artist_ratio artist_token_ratio
  let confidence := final_name_ratio * (6 / 10) + final_artist_ratio * (4 / 10)
  let confidence := confidence +
    (if optIntTruthy s.duration_ms && optIntTruthy c.duration_ms then
      let d := |s.duration_ms.getD 0 - c.duration_ms.getD 0|
      if d ≤ 2000 then 5 else if d ≤ 5000 then 2 else 0
    else 0)
  let confidence := confidence +
    (if s.album ≠ "" && c.album ≠ "" then
      let album_ratio := F.ratio s.album.toLower c.album.toLower
      if album_ratio > 90 then 8
      else if album_ratio > 80 then 5
      else if album_ratio > 60 then 2
      else if album_ratio < 30 then -3
      else 0
    else 0)
  let confidence := confidence + (if c.album_type = some "compilation" then -10 else 0)
  let confidence := confidence +
    (if c.album ≠ "" then
      (if anyKeywordIn compKeywordsConf c.album.toLower then -12 else 0) +
      (if yearHits c.album.toLower then -5 else 0)
    else 0)
  min confidence 100

/-- Best-candidate selection of `_match_by_isrc`: `best_score` starts at
`-inf`, so the first candidate is always taken; later candidates only on a
strictly greater score. -/
def pickBestIsrc (F : Fuzz) (s : Track) (cs : List Track) : Option Track :=
  (cs.foldl
    (fun acc c =>
      match acc with
      | none => some (c, scoreIsrcCandidate F s c)
      | some (b, bs) =>
        if scoreIsrcCandidate F s c > bs then some (c, scoreIsrcCandidate F s c)
        else some (b, bs))
    none).map Prod.fst

/-- `TrackMatcher._match_by_isrc`, with its destination call made
observable.  A raising lookup is caught and yields no candidate. -/
def matchByIsrc (F : Fuzz) (svc : DestService) (t : Track) :
    Option Track × List DestCall :=
  match svc.search_by_isrc with
  | none => (none, [])
  | some lookup =>
    let code := t.isrc.getD ""
    match lookup code with
    | .error _ => (none, [.searchByIsrc code])
    | .ok [] => (none, [.searchByIsrc code])
    | .ok [c] => (some c, [.searchByIsrc code])
    | .ok cs => (pickBestIsrc F t cs, [.searchByIsrc code])

/-- Best-of-results fold of `_match_by_exact_search` and
`_match_by_fuzzy_search`: `best_score` starts at 0, updated on strictly
greater scores. -/
def bestOfResults (F : Fuzz) (t : Track) (acc : Option Track × ℚ)
    (results : List Track) : Option Track × ℚ :=
  results.foldl
    (fun b tr =>
      let score := calcConfidence F t tr
      if score > b.2 then (some tr, score) else b)
    acc

/-- `TrackMatcher._match_by_exact_search`. -/
def matchByExactSearch (F : Fuzz) (svc : DestService) (t : Track) :
    Option Track × List DestCall :=
  let query := t.name ++ " " ++ t.artist
  match svc.search_track query 10 with
  | .error _ => (none, [.searchTrack query 10])
  | .ok results =>
    let best := bestOfResults F t (none, 0) results
    (if best.2 ≥ exactThreshold then best.1 else none, [.searchTrack query 10])

/-- The four query variants of `_match_by_fuzzy_search`. -/
def fuzzyQueries (t : Track) : List String :=
  [cleanTrackName t.name ++ " " ++ cleanArtistName t.artist,
   t.name ++ " " ++ cleanArtistName t.artist,
   cleanTrackName t.name ++ " " ++ t.artist,
   t.name]

/-- The query loop of `_match_by_fuzzy_search`.  The `try` block wraps the
whole loop, so an error on any search aborts the strategy, discarding
candidates already collected from earlier queries. -/
def fuzzyLoop (F : Fuzz) (svc : DestService) (t : Track) :
    List String → (Option Track × ℚ) → Except Unit (Option Track × ℚ) × List DestCall
  | [], acc => (.ok acc, [])
  | q :: qs, acc =>
    match svc.search_track q 20 with
    | .error _ => (.error (), [.searchTrack q 20])
    | .ok results =>
      let out := fuzzyLoop F svc t qs (bestOfResults F t acc results)
      (out.1, .searchTrack q 20 :: out.2)

/-- `TrackMatcher._match_by_fuzzy_search`. -/
def matchByFuzzySearch (F : Fuzz) (svc : DestService) (t : Track) :
    Option Track × List DestCall :=
  match fuzzyLoop F svc t (fuzzyQueries t) (none, 0) with
  | (.error _, log) => (none, log)
  | (.ok best, log) => (if best.2 ≥ fuzzyThreshold then best.1 else none, log)

/-- The ISRC-branch confidence of `match_track`: base 95, raised to 100 when
both album titles are non-empty and their similarity exceeds 80. -/
def isrcConfidence (F : Fuzz) (t m : Track) : ℚ :=
  if t.album ≠ "" && m.album ≠ "" then
    if F.ratio t.album.toLower m.album.toLower > 80 then 100 else 95
  else 95

/-- The no-match result returned when every strategy fails. -/
def noMatchResult (t : Track) : MatchResult :=
  { source_track := t, destination_track := none,
    match_confidence := 0, match_method := none }

/-- `TrackMatcher.match_track`: the three strategies in order, with all
destination calls made observable. -/
def matchTrack (F : Fuzz) (svc : DestService) (t : Track) :
    MatchResult × List DestCall :=
  let s1 := if optStrTruthy t.isrc then matchByIsrc F svc t else (none, [])
  match s1.1 with
  | some m =>
    ({ source_track := t, destination_track := some m,
       match_confidence := isrcConfidence F t m, match_method := some "isrc" }, s1.2)
  | none =>
    let s2 := matchByExactSearch F svc t
    let exactAccepted : Option MatchResult :=
      match s2.1 with
      | some m =>
        let confidence := calcConfidence F t m
        if confidence ≥ exactThreshold then
          some { source_track := t, destination_track := some m,
                 match_confidence := confidence, match_method := some "exact" }
        else none
      | none => none
    match exactAccepted with
    | some r => (r, s1.2 ++ s2.2)
    | none =>
      let s3 := matchByFuzzySearch F svc t
      let out :=
        match s3.1 with
        | some m =>
          let confidence := calcConfidence F t m
          if confidence ≥ fuzzyThreshold then
            { source_track := t, destination_track := some m,
              match_confidence := confidence, match_method := some "fuzzy" }
          else noMatchResult t
        | none => noMatchResult t
      (out, s1.2 ++ s2.2 ++ s3.2)

/-- Python 3 `round` to an integer: round half to even. -/
def pyRound (q : ℚ) : ℤ :=
  let f := ⌊q⌋
  let frac := q - f
  if frac < 1 / 2 then f
  else if 1 / 2 < frac then f + 1
  else if f % 2 = 0 then f else f + 1

/-- A progress-callback invocation `on_progress(percent, current, total)`. -/
abbrev ProgressEvent := ℤ × ℕ × ℕ

/-- The batch loop of `SyncService.match_all_tracks`: batches of 15 source
tracks in source order; after each batch one progress event (when a callback
was supplied).  Fuel is the remaining track count, enough because each
iteration consumes at least one track. -/
def matchLoop (F : Fuzz) (svc : DestService) (total : Nat) (onP : Bool) :
    Nat → List Track → Nat → List MatchResult × List DestCall × List ProgressEvent
  | 0, _, _ => ([], [], [])
  | fuel + 1, ts, done =>
    if ts = [] then ([], [], [])
    else
      let batch := ts.take 15
      let rest := ts.drop 15
      let pairs := batch.map (matchTrack F svc)
      let done2 := done + batch.length
      let ev : List ProgressEvent :=
        if onP then [(pyRound ((done2 : ℚ) / (total : ℚ) * 100), done2, total)] else []
      let next := matchLoop F svc total onP fuel rest done2
      (pairs.map Prod.fst ++ next.1, (pairs.map Prod.snd).flatten ++ next.2.1, ev ++ next.2.2)

/-- `SyncService.match_all_tracks`. -/
def matchAllTracks (F : Fuzz) (svc : DestService) (ts : List Track) (onP : Bool) :
    List MatchResult × List DestCall × List ProgressEvent :=
  matchLoop F svc ts.length onP ts.length ts 0

/-- Python `str.strip()`. -/
def pyStrip (s : String) : String := String.mk (stripChars s.toList)

/-- The normalized duplicate-detection signature
`f"{name.lower().strip()} - {artist.lower().strip()}"`. -/
def trackSignature (t : Track) : String :=
  pyStrip t.name.toLower ++ " - " ++ pyStrip t.artist.toLower

/-- The aggregation loop of `sync_playlist` (phase 4): matched destination
ids, the corresponding `MatchResult`s, and unmatched-track descriptors, all
in source order. -/
def collectMatched :
    List MatchResult → List String × List MatchResult × List (String × String × String)
  | [] => ([], [], [])
  | r :: rs =>
    let rest := collectMatched rs
    match r.destination_track with
    | some d => (d.id :: rest.1, r :: rest.2.1, rest.2.2)
    | none =>
      (rest.1, rest.2.1,
       (r.source_track.name, r.source_track.artist, r.source_track.album) :: rest.2.2)

/-- The update-mode duplicate filter of `sync_playlist`: walk the matched ids
together with their `MatchResult`s; skip an id whose source-track signature
is already present; the fallback branch (no result at this index) keeps the
id. -/
def filterNew (sigs : List String) : List String → List MatchResult → List String
  | [], _ => []
  | tid :: ids, [] => tid :: filterNew sigs ids []
  | tid :: ids, r :: rs =>
    if sigs.contains (trackSignature r.source_track) then filterNew sigs ids rs
    else tid :: filterNew sigs ids rs

/-- The options dictionary consumed by `sync_playlist`.  `on_progress`
records whether a progress callback was supplied. -/
structure SyncOptions where
  sync_mode : Option String := none
  playlist_name : Option String := none
  playlist_description : Option String := none
  update_existing : Bool := false
  on_progress : Bool := false

/-- Destination resolution (step 2 of `sync_playlist`).  Returns the found
destination playlist (if any), the resolved target name, and the value the
sync mode is reassigned to (`none` when the branch leaves it untouched). -/
def resolveDestination (dst : DestService) (srcName : String) (o : SyncOptions)
    (spName : String) :
    Except String (Option Playlist × String × Option String) × List DestCall :=
  if o.update_existing then
    let original_name := strOr o.playlist_name spName
    match dst.find_playlist_by_name original_name with
    | .error e => (.error e, [.findPlaylistByName original_name])
    | .ok (some dp) =>
      (.ok (some dp, dp.name, some "update"), [.findPlaylistByName original_name])
    | .ok none =>
      let name_with_suffix := original_name ++ " (from " ++ srcName ++ ")"
      match dst.find_playlist_by_name name_with_suffix with
      | .error e =>
        (.error e, [.findPlaylistByName original_name, .findPlaylistByName name_with_suffix])
      | .ok (some dp) =>
        (.ok (some dp, dp.name, some "update"),
         [.findPlaylistByName original_name, .findPlaylistByName name_with_suffix])
      | .ok none =>
        (.ok (none, original_name, some "create"),
         [.findPlaylistByName original_name, .findPlaylistByName name_with_suffix])
  else
    (.ok (none, strOr o.playlist_name (spName ++ " (from " ++ srcName ++ ")"), none), [])

/-- Update-mode write-back (step 5): fetch existing destination tracks, build
the signature set, filter, and add only the surviving ids; with nothing
surviving, make no write call and keep the found playlist.  The matched-track
count is overwritten with the count of tracks actually newly added. -/
def updateWriteBack (dst : DestService) (r2 : SyncResult) (dp : Playlist)
    (mids : List String) (mrs : List MatchResult) (startMs endMs : Int) :
    Except String SyncResult × List DestCall :=
  match dst.get_playlist_tracks dp.id with
  | .error e => (.error e, [.getPlaylistTracks dp.id])
  | .ok existing =>
    let sigs := existing.map trackSignature
    let newIds := filterNew sigs mids mrs
    if newIds = [] then
      (.ok { r2 with
              destination_playlist := some dp, matched_tracks := 0,
              end_time := some endMs, duration := some (endMs - startMs) },
       [.getPlaylistTracks dp.id])
    else
      match dst.add_tracks_to_playlist dp.id newIds with
      | .error e => (.error e, [.getPlaylistTracks dp.id, .addTracks dp.id newIds])
      | .ok pl =>
        (.ok { r2 with
                destination_playlist := some pl, matched_tracks := newIds.length,
                end_time := some endMs, duration := some (endMs - startMs) },
         [.getPlaylistTracks dp.id, .addTracks dp.id newIds])

/-- Create-mode write-back (step 5): create a new destination playlist with
the full matched-id list.  The matched-track count is left as set by the
aggregation phase. -/
def createWriteBack (dst : DestService) (r2 : SyncResult) (pname desc : String)
    (mids : List String) (startMs endMs : Int) :
    Except String SyncResult × List DestCall :=
  match dst.create_playlist pname desc mids with
  | .error e => (.error e, [.createPlaylist pname desc mids])
  | .ok pl =>
    (.ok { r2 with
            destination_playlist := some pl,
            end_time := some endMs, duration := some (endMs - startMs) },
     [.createPlaylist pname desc mids])

/-- Result of one `sync_playlist` run: the returned or raised value, the
destination-service calls made, and the progress-callback invocations, in
order. -/
structure SyncRun where
  result : Except String SyncResult
  calls : List DestCall
  progress : List ProgressEvent
deriving Repr

/-- `SyncService.sync_playlist`.  `startMs`/`endMs` are the two wall-clock
readings and `today` the formatted date used in the generated description;
on an exception the error message is re-raised as `Except.error`. -/
def syncPlaylist (F : Fuzz) (src : SrcService) (dst : DestService)
    (source_playlist_id : String) (o : SyncOptions) (startMs endMs : Int)
    (today : String) : SyncRun :=
  let mode0 := (o.sync_mode).getD "create"
  let base : SyncResult :=
    { source_service := src.service_name, destination_service := dst.service_name,
      start_time := startMs, sync_mode := mode0 }
  match src.get_playlist_details source_playlist_id with
  | .error e => { result := .error e, calls := [], progress := [] }
  | .ok sp =>
    match src.get_playlist_tracks source_playlist_id with
    | .error e => { result := .error e, calls := [], progress := [] }
    | .ok source_tracks =>
      let r1 := { base with
                   source_playlist := some sp,
                   total_tracks := source_tracks.length }
      if source_tracks = [] then
        { result := .ok { r1 with end_time := some endMs }, calls := [], progress := [] }
      else
        match resolveDestination dst src.service_name o sp.name with
        | (.error e, rcalls) => { result := .error e, calls := rcalls, progress := [] }
        | (.ok (dpOpt, pname, modeUpd), rcalls) =>
          let mode1 := modeUpd.getD mode0
          let mout := matchAllTracks F dst source_tracks o.on_progress
          let agg := collectMatched mout.1
          let mids := agg.1
          let mrs := agg.2.1
          let r2 := { r1 with
                       sync_mode := mode1, matched_tracks := mids.length,
                       unmatched_tracks := agg.2.2 }
          let calls0 := rcalls ++ mout.2.1
          let prog := mout.2.2
          if mids = [] then
            { result := .ok { r2 with
                               end_time := some endMs,
                               duration := some (endMs - startMs) },
              calls := calls0, progress := prog }
          else
            let desc := strOr o.playlist_description
              ("Synced from " ++ src.service_name ++ " on " ++ today)
            match dpOpt with
            | some dp =>
              if mode1 = "update" then
                let w := updateWriteBack dst r2 dp mids mrs startMs endMs
                { result := w.1, calls := calls0 ++ w.2, progress := prog }
              else
                let w := createWriteBack dst r2 pname desc mids startMs endMs
                { result := w.1, calls := calls0 ++ w.2, progress := prog }
            | none =>
              let w := createWriteBack dst r2 pname desc mids startMs endMs
              { result := w.1, calls := calls0 ++ w.2, progress := prog }

/-- Step 3 of the specification, stated in its own words: source tracks are
partitioned into batches of 15, and after each batch the progress callback
receives `percent = round(done / total * 100)` together with the cumulative
count and the total.  Used to compare `matchAllTracks` against the
specification text. -/
def specBatchProgress (total : Nat) : Nat → Nat → List ProgressEvent
  | 0, _ => []
  | fuel + 1, done =>
    if total - done = 0 then []
    else
      let done2 := min (done + 15) total
      (pyRound ((done2 : ℚ) / (total : ℚ) * 100), done2, total) ::
        specBatchProgress total fuel done2

/-- The full progress trace the specification prescribes for `n` source
tracks. -/
def specProgressTrace (n : Nat) : List ProgressEvent := specBatchProgress n n 0

def modelRatio : String → String → ℚ := fun a b => if a = b then 100 else 0

def modelFuzz : Fuzz := { ratio := modelRatio, token_sort_ratio := modelRatio }

def t9 : Track := { id := "s", name := "Q (x)", artist := "B", album := "" }

def good9 : Track := { id := "g", name := "Q (x)", artist := "B", album := "" }

def svc9 : DestService :=
  { service_name := "Apple Music"
    search_by_isrc := none
    search_track := fun q l =>
      if l = 10 then .ok []
      else if q = "Q B" then .ok [good9]
      else if q = "Q (x) B" then .error "boom"
      else .ok []
    find_playlist_by_name := fun _ => .ok none
    get_playlist_tracks := fun _ => .ok []
    add_tracks_to_playlist := fun _ _ => .ok { id := "d", name := "D" }
    create_playlist := fun n _ _ => .ok { id := "n", name := n } }

def svc9Ok : DestService :=
  { service_name := "Apple Music"
    search_by_isrc := none
    search_track := fun q l =>
      if q = "Q (x) B" && l == 20 then .ok [] else svc9.search_track q l
    find_playlist_by_name := fun _ => .ok none
    get_playlist_tracks := fun _ => .ok []
    add_tracks_to_playlist := fun _ _ => .ok { id := "d", name := "D" }
    create_playlist := fun n _ _ => .ok { id := "n", name := n } }

def svcInert : DestService :=
  { service_name := "Apple Music"
    search_by_isrc := none
    search_track := fun _ _ => .ok []
    find_playlist_by_name := fun _ => .ok none
    get_playlist_tracks := fun _ => .ok []
    add_tracks_to_playlist := fun _ _ => .ok { id := "d", name := "D" }
    create_playlist := fun n _ _ => .ok { id := "n", name := n } }

def wTracks40 : List Track :=
  (List.range 40).map (fun i => { id := toString i, name := "N", artist := "A", album := "" })

def wTrack1 : Track := { id := "w", name := "W", artist := "A", album := "" }

def witIsrcSrc : Track :=
  { id := "s", name := "Song", artist := "A", album := "Al", isrc := some "USX" }

def witIsrcCand : Track := { id := "c", name := "Song", artist := "A", album := "Al" }

def svcIsrc : DestService :=
  { svcInert with search_by_isrc := some (fun _ => .ok [witIsrcCand]) }

def srcW : SrcService :=
  { service_name := "Spotify"
    get_playlist_details := fun _ => .ok { id := "p", name := "P" }
    get_playlist_tracks := fun _ => .ok [] }

def tOne : Track := { id := "t1", name := "Song", artist := "Artist", album := "" }

def srcOne : SrcService :=
  { service_name := "Spotify"
    get_playlist_details := fun _ => .ok { id := "p", name := "P" }
    get_playlist_tracks := fun _ => .ok [tOne] }

def oU : SyncOptions := { sync_mode := some "update", update_existing := true }

def dpW : Playlist := { id := "dp", name := "P" }

def dstFind : DestService :=
  { svcInert with
     find_playlist_by_name := fun n => if n = "P" then .ok (some dpW) else .ok none }

def rModeW : SyncResult :=
  { source_playlist := some { id := "p", name := "P" }, destination_playlist := none,
    source_service := "Spotify", destination_service := "Apple Music",
    total_tracks := 1, matched_tracks := 0,
    unmatched_tracks := [("Song", "Artist", "")], errors := [],
    start_time := 0, end_time := some 5, sync_mode := "update", duration := some 5 }

/-- Calls made by the matcher are searches only. -/
def isSearchCall (c : DestCall) : Prop :=
  (∃ q l, c = DestCall.searchTrack q l) ∨ (∃ i, c = DestCall.searchByIsrc i)

def tDup : Track := { id := "s1", name := "Dup", artist := "A", album := "X" }

def tNew : Track := { id := "s2", name := "New", artist := "A", album := "X" }

def cDup : Track := { id := "c1", name := "Dup", artist := "A", album := "X" }

def cNew : Track := { id := "c2", name := "New", artist := "A", album := "X" }

def existingDup : Track := { id := "e9", name := "Dup", artist := "A", album := "Y" }

def spU : Playlist := { id := "p", name := "P" }

def dpU : Playlist := { id := "dp", name := "P" }

def srcU : SrcService :=
  { service_name := "Spotify"
    get_playlist_details := fun _ => .ok spU
    get_playlist_tracks := fun _ => .ok [tDup, tNew] }

def dstU : DestService :=
  { service_name := "Apple Music"
    search_by_isrc := none
    search_track := fun q _ =>
      if q = "Dup A" then .ok [cDup] else if q = "New A" then .ok [cNew] else .ok []
    find_playlist_by_name := fun n => if n = "P" then .ok (some dpU) else .ok none
    get_playlist_tracks := fun i => if i = "dp" then .ok [existingDup] else .ok []
    add_tracks_to_playlist := fun _ ids => .ok { id := "dp", name := "P", track_count := ids.length }
    create_playlist := fun n _ _ => .ok { id := "new", name := n } }

def srcU1 : SrcService :=
  { srcU with get_playlist_tracks := fun _ => .ok [tDup] }

def rDupW : SyncResult :=
  { source_playlist := some spU, destination_playlist := some dpU,
    source_service := "Spotify", destination_service := "Apple Music",
    total_tracks := 1, matched_tracks := 0, unmatched_tracks := [], errors := [],
    start_time := 0, end_time := some 5, sync_mode := "update", duration := some 5 }

/-- No two adjacent whitespace characters. -/
def noTwoWS (l : List Char) : Prop :=
  List.Chain' (fun a b => ¬(isPyWS a = true ∧ isPyWS b = true)) l

def svcBoom : DestService :=
  { service_name := "Apple Music"
    search_by_isrc := some (fun _ => .error "down")
    search_track := fun _ _ => .error "down"
    find_playlist_by_name := fun _ => .error "down"
    get_playlist_tracks := fun _ => .error "down"
    add_tracks_to_playlist := fun _ _ => .error "down"
    create_playlist := fun _ _ _ => .error "down" }

def tB : Track := { id := "b", name := "N", artist := "A", album := "", isrc := some "IS1" }

theorem isrcConfidence_pos (F : Fuzz) (t m : Track) : 0 < isrcConfidence F t m := by
  unfold isrcConfidence
  split_ifs <;> norm_num

/-- C1: for every MatchResult returned by matchTrack, the three conditions
"match method is none", "destination track is absent" and "confidence equals
0" are pairwise equivalent, for every fuzz model and destination service. -/
theorem matchTrack_noMatch_invariant (F : Fuzz) (svc : DestService) (t : Track) :
    ((matchTrack F svc t).1.match_method = none ↔
      (matchTrack F svc t).1.destination_track = none) ∧
    ((matchTrack F svc t).1.destination_track = none ↔
      (matchTrack F svc t).1.match_confidence = 0) := by
  simp only [matchTrack]
  rcases hI : (if optStrTruthy t.isrc then matchByIsrc F svc t else (none, [])).1 with _ | m
  · simp only [hI]
    rcases hE : (matchByExactSearch F svc t).1 with _ | m2
    · simp only [hE]
      rcases hZ : (matchByFuzzySearch F svc t).1 with _ | m3
      · simp [hZ, noMatchResult]
      · simp only [hZ]
        by_cases hc : calcConfidence F t m3 ≥ fuzzyThreshold
        · have : calcConfidence F t m3 ≠ 0 := by
            intro h0; rw [h0] at hc; norm_num [fuzzyThreshold] at hc
          simp [hc, this]
        · simp [hc, noMatchResult]
    · simp only [hE]
      by_cases hc : calcConfidence F t m2 ≥ exactThreshold
      · have : calcConfidence F t m2 ≠ 0 := by
          intro h0; rw [h0] at hc; norm_num [exactThreshold] at hc
        simp [hc, this]
      · simp only [hc, if_false]
        rcases hZ : (matchByFuzzySearch F svc t).1 with _ | m3
        · simp [hZ, noMatchResult]
        · simp only [hZ]
          by_cases hc3 : calcConfidence F t m3 ≥ fuzzyThreshold
          · have : calcConfidence F t m3 ≠ 0 := by
              intro h0; rw [h0] at hc3; norm_num [fuzzyThreshold] at hc3
            simp [hc3, this]
          · simp [hc3, noMatchResult]
  · have := isrcConfidence_pos F t m
    simp only [hI]
    constructor <;> constructor <;> intro h <;> simp_all

/-- C4: for a source track carrying an ISRC, when the by-ISRC lookup yields
an accepted candidate, the MatchResult has method "isrc" and confidence
exactly 100 when both album titles are non-empty and their fuzzy similarity
exceeds 80, and exactly 95 otherwise (similarity at most 80 or an album
title missing). -/
theorem matchTrack_isrc_confidence (F : Fuzz) (svc : DestService) (t c : Track)
    (hisrc : optStrTruthy t.isrc = true)
    (hfound : (matchByIsrc F svc t).1 = some c) :
    (matchTrack F svc t).1.match_method = some "isrc" ∧
    (matchTrack F svc t).1.match_confidence =
      (if t.album ≠ "" ∧ c.album ≠ "" ∧
          F.ratio t.album.toLower c.album.toLower > 80
       then 100 else 95) := by
  simp only [matchTrack, hisrc, if_true, hfound]
  refine ⟨trivial, ?_⟩
  unfold isrcConfidence
  by_cases h1 : t.album = "" <;> by_cases h2 : c.album = "" <;>
    by_cases h3 : F.ratio t.album.toLower c.album.toLower > 80 <;>
    simp_all

theorem fuzzyLoop_error_of_mem (F : Fuzz) (svc : DestService) (t : Track)
    (q : String) (e : String) (he : svc.search_track q 20 = .error e) :
    ∀ qs acc, q ∈ qs → (fuzzyLoop F svc t qs acc).1 = .error () := by
  intro qs
  induction qs with
  | nil => intro acc h; cases h
  | cons p ps ih =>
    intro acc hmem
    rcases List.mem_cons.mp hmem with rfl | hmem2
    · simp only [fuzzyLoop, he]
    · simp only [fuzzyLoop]
      rcases hs : svc.search_track p 20 with e2 | results
      · simp
      · exact ih _ hmem2

/-- C9 (amended): exceptions from destination search and lookup calls are
caught inside the matcher at strategy granularity and never propagate: an
error in the by-ISRC lookup or in the exact search makes that strategy yield
no candidate, and an error in any one of the four fuzzy queries makes the
whole fuzzy strategy yield no candidate (discarding candidates already
collected from earlier queries - contrary to the per-call reading of the
claim, see the counterexample); when all strategies fail, matchTrack returns
the no-match result. -/
theorem matchTrack_error_containment (F : Fuzz) (svc : DestService) (t : Track) :
    (∀ f, svc.search_by_isrc = some f →
      ∀ e, f (t.isrc.getD "") = .error e → (matchByIsrc F svc t).1 = none) ∧
    (∀ e, svc.search_track (t.name ++ " " ++ t.artist) 10 = .error e →
      (matchByExactSearch F svc t).1 = none) ∧
    (∀ q, q ∈ fuzzyQueries t → (∃ e, svc.search_track q 20 = .error e) →
      (matchByFuzzySearch F svc t).1 = none) ∧
    ((matchByIsrc F svc t).1 = none → (matchByExactSearch F svc t).1 = none →
      (matchByFuzzySearch F svc t).1 = none →
      (matchTrack F svc t).1 = noMatchResult t) := by
  refine ⟨?_, ?_, ?_, ?_⟩
  · intro f hf e he
    simp only [matchByIsrc, hf, he]
  · intro e he
    simp only [matchByExactSearch, he]
  · intro q hq he
    rcases he with ⟨e, he⟩
    simp only [matchByFuzzySearch]
    rcases hl : fuzzyLoop F svc t (fuzzyQueries t) (none, 0) with ⟨v, log⟩
    have := fuzzyLoop_error_of_mem F svc t q e he (fuzzyQueries t) (none, 0) hq
    rw [hl] at this
    simp only at this
    subst this
    rfl
  · intro h1 h2 h3
    simp only [matchTrack]
    rcases hI : (if optStrTruthy t.isrc then matchByIsrc F svc t else (none, [])).1
      with _ | m
    · simp only [hI, h2, h3]
    · exfalso
      by_cases ht : optStrTruthy t.isrc
      · rw [if_pos ht, h1] at hI; cases hI
      · rw [if_neg ht] at hI; cases hI

/-- C9 counterexample: an exception on one fuzzy query is not treated as
that call yielding no candidates.  The two services below agree everywhere
except on the second fuzzy query, where one raises and the other returns no
candidates, yet matchTrack returns a no-match result on the former and a
fuzzy match on the latter: the raising call aborts the whole fuzzy strategy
and discards the candidate found by the first query. -/
theorem matchTrack_error_cex :
    svc9.search_track "Q (x) B" 20 = .error "boom" ∧
    svc9Ok.search_track "Q (x) B" 20 = .ok [] ∧
    (∀ q l, q ≠ "Q (x) B" ∨ l ≠ 20 → svc9Ok.search_track q l = svc9.search_track q l) ∧
    (matchTrack modelFuzz svc9 t9).1 = noMatchResult t9 ∧
    (matchTrack modelFuzz svc9Ok t9).1.match_method = some "fuzzy" := by
  refine ⟨rfl, rfl, ?_, by with_unfolding_all decide, by with_unfolding_all decide⟩
  intro q l h
  show (if q = "Q (x) B" && l == 20 then Except.ok [] else svc9.search_track q l) = _
  rcases h with h | h
  · simp [h]
  · simp [h]

theorem matchLoop_results (F : Fuzz) (svc : DestService) (total : Nat) (onP : Bool) :
    ∀ fuel ts done, ts.length ≤ fuel →
      (matchLoop F svc total onP fuel ts done).1 =
        ts.map (fun t => (matchTrack F svc t).1) := by
  intro fuel
  induction fuel with
  | zero =>
    intro ts done h
    have : ts = [] := List.eq_nil_of_length_eq_zero (Nat.le_zero.mp h)
    subst this
    rfl
  | succ n ih =>
    intro ts done h
    by_cases hts : ts = []
    · subst hts; simp [matchLoop]
    · simp only [matchLoop, if_neg hts]
      rw [ih (ts.drop 15) (done + (ts.take 15).length)
            (by simp only [List.length_drop]; omega)]
      simp only [List.map_map]
      rw [show (Prod.fst ∘ matchTrack F svc) = (fun t => (matchTrack F svc t).1) from rfl]
      rw [← List.map_append, List.take_append_drop]

theorem matchLoop_progress (F : Fuzz) (svc : DestService) (total : Nat) :
    ∀ fuel ts done, ts.length ≤ fuel → done + ts.length = total →
      (matchLoop F svc total true fuel ts done).2.2 = specBatchProgress total fuel done := by
  intro fuel
  induction fuel with
  | zero =>
    intro ts done h hinv
    have : ts = [] := List.eq_nil_of_length_eq_zero (Nat.le_zero.mp h)
    subst this
    rfl
  | succ n ih =>
    intro ts done h hinv
    by_cases hts : ts = []
    · subst hts
      have hd : total - done = 0 := by simp at hinv; omega
      simp [matchLoop, specBatchProgress, hd]
    · have hlen : 0 < ts.length := List.length_pos.mpr hts
      have hd : ¬ total - done = 0 := by omega
      simp only [matchLoop, if_neg hts, specBatchProgress, if_neg hd]
      have htake : done + (ts.take 15).length = min (done + 15) total := by
        simp only [List.length_take]; omega
      rw [ih (ts.drop 15) (done + (ts.take 15).length)
            (by simp only [List.length_drop]; omega)
            (by simp only [List.length_drop, List.length_take] at htake ⊢; omega)]
      rw [htake]
      simp

theorem specBatchProgress_eq_nil (total done : Nat) (hd : total - done = 0) :
    ∀ fuel, specBatchProgress total fuel done = [] := by
  intro fuel
  cases fuel with
  | zero => rfl
  | succ n => simp [specBatchProgress, hd]

theorem specBatchProgress_ne_nil (total done fuel : Nat) (h1 : done < total)
    (h2 : total ≤ done + fuel) : specBatchProgress total fuel done ≠ [] := by
  cases fuel with
  | zero => omega
  | succ n =>
    have : ¬ total - done = 0 := by omega
    simp [specBatchProgress, this]

theorem pyRound_hundred : pyRound 100 = 100 := by with_unfolding_all decide

theorem getLast?_cons_ne {α : Type} (a : α) (l : List α) (h : l ≠ []) :
    (a :: l).getLast? = l.getLast? := by
  cases l with
  | nil => exact absurd rfl h
  | cons b t => rfl

theorem specBatchProgress_getLast (total : Nat) :
    ∀ fuel done, done < total → total ≤ done + fuel →
      (specBatchProgress total fuel done).getLast? = some (100, total, total) := by
  intro fuel
  induction fuel with
  | zero => intro done h1 h2; omega
  | succ n ih =>
    intro done h1 h2
    have hd : ¬ total - done = 0 := by omega
    simp only [specBatchProgress, if_neg hd]
    by_cases h3 : min (done + 15) total = total
    · rw [h3]
      rw [specBatchProgress_eq_nil total total (by omega) n]
      have hdiv : ((total : ℚ) / (total : ℚ) * 100) = 100 := by
        rw [div_self (Nat.cast_ne_zero.mpr (by omega))]
        ring
      simp [hdiv, pyRound_hundred]
    · have h4 : min (done + 15) total < total := by omega
      have h5 : total ≤ min (done + 15) total + n := by omega
      have h6 := specBatchProgress_ne_nil total (min (done + 15) total) n h4 h5
      rw [getLast?_cons_ne _ _ h6]
      exact ih (min (done + 15) total) h4 h5

/-- C6: matching partitions the source tracks into batches of 15 in source
order (the results are the per-track match results in source order), and
after each batch the progress callback is invoked exactly once with
percent = round(done / total * 100), where done counts the tracks processed
through matching so far ("matched-so-far" in the specification text); for 40
source tracks this yields exactly the 3 invocations (38, 15, 40),
(75, 30, 40) and (100, 40, 40). -/
theorem matchAllTracks_progress_spec (F : Fuzz) (svc : DestService) (ts : List Track) :
    (matchAllTracks F svc ts true).1 = ts.map (fun t => (matchTrack F svc t).1) ∧
    (matchAllTracks F svc ts true).2.2 = specProgressTrace ts.length ∧
    (ts.length = 40 → (matchAllTracks F svc ts true).2.2 =
      [(38, 15, 40), (75, 30, 40), (100, 40, 40)]) := by
  have hres := matchLoop_results F svc ts.length true ts.length ts 0 le_rfl
  have hprog := matchLoop_progress F svc ts.length ts.length ts 0 le_rfl (by omega)
  refine ⟨hres, hprog, ?_⟩
  intro h40
  have : (matchAllTracks F svc ts true).2.2 = specProgressTrace 40 := by
    rw [← h40]; exact hprog
  rw [this]
  with_unfolding_all decide

theorem matchAllTracks_progress_spec_witness :
    wTracks40.length = 40 ∧
    (matchAllTracks modelFuzz svcInert wTracks40 true).2.2 =
      [(38, 15, 40), (75, 30, 40), (100, 40, 40)] :=
  ⟨rfl, (matchAllTracks_progress_spec modelFuzz svcInert wTracks40).2.2 rfl⟩

/-- C10: for every non-empty source track list, the final progress-callback
invocation reports current = total and percent = 100, regardless of how many
tracks were actually matched. -/
theorem matchAllTracks_final_progress (F : Fuzz) (svc : DestService) (ts : List Track)
    (h : ts ≠ []) :
    (matchAllTracks F svc ts true).2.2.getLast? = some (100, ts.length, ts.length) := by
  have hprog : (matchAllTracks F svc ts true).2.2 = specBatchProgress ts.length ts.length 0 :=
    matchLoop_progress F svc ts.length ts.length ts 0 le_rfl (by omega)
  rw [hprog]
  exact specBatchProgress_getLast ts.length ts.length 0 (List.length_pos.mpr h) (by omega)

theorem matchAllTracks_final_progress_witness :
    (matchAllTracks modelFuzz svcInert [wTrack1] true).2.2.getLast? = some (100, 1, 1) :=
  matchAllTracks_final_progress modelFuzz svcInert [wTrack1] (List.cons_ne_nil _ _)

theorem matchTrack_isrc_confidence_witness :
    optStrTruthy witIsrcSrc.isrc = true ∧
    (matchByIsrc modelFuzz svcIsrc witIsrcSrc).1 = some witIsrcCand ∧
    ((matchTrack modelFuzz svcIsrc witIsrcSrc).1.match_method = some "isrc" ∧
     (matchTrack modelFuzz svcIsrc witIsrcSrc).1.match_confidence =
       (if witIsrcSrc.album ≠ "" ∧ witIsrcCand.album ≠ "" ∧
           modelFuzz.ratio witIsrcSrc.album.toLower witIsrcCand.album.toLower > 80
        then 100 else 95)) :=
  ⟨by decide, by decide,
   matchTrack_isrc_confidence modelFuzz svcIsrc witIsrcSrc witIsrcCand (by decide) (by decide)⟩

/-- C5 (amended): with an empty source track list, syncPlaylist returns a
SyncResult with total tracks 0, matched tracks 0, an empty unmatched list
and the end time set, makes no destination-service call and emits no
progress event; contrary to the claim as stated, the duration field is left
unset on this early-return path (see the counterexample). -/
theorem syncPlaylist_empty_source (F : Fuzz) (src : SrcService) (dst : DestService)
    (pid : String) (o : SyncOptions) (t0 t1 : Int) (today : String) (sp : Playlist)
    (hd : src.get_playlist_details pid = .ok sp)
    (ht : src.get_playlist_tracks pid = .ok []) :
    (syncPlaylist F src dst pid o t0 t1 today).result =
      .ok { source_service := src.service_name,
            destination_service := dst.service_name,
            start_time := t0, sync_mode := (o.sync_mode).getD "create",
            source_playlist := some sp, total_tracks := 0, matched_tracks := 0,
            unmatched_tracks := [], end_time := some t1, duration := none } ∧
    (syncPlaylist F src dst pid o t0 t1 today).calls = [] ∧
    (syncPlaylist F src dst pid o t0 t1 today).progress = [] := by
  simp [syncPlaylist, hd, ht]

theorem syncPlaylist_empty_source_witness :
    (syncPlaylist modelFuzz srcW svcInert "p" {} 10 25 "d").result =
      .ok { source_service := "Spotify", destination_service := "Apple Music",
            start_time := 10, sync_mode := "create",
            source_playlist := some { id := "p", name := "P" }, total_tracks := 0,
            matched_tracks := 0, unmatched_tracks := [], end_time := some 25,
            duration := none } ∧
    (syncPlaylist modelFuzz srcW svcInert "p" {} 10 25 "d").calls = [] ∧
    (syncPlaylist modelFuzz srcW svcInert "p" {} 10 25 "d").progress = [] :=
  syncPlaylist_empty_source modelFuzz srcW svcInert "p" {} 10 25 "d"
    { id := "p", name := "P" } rfl rfl

/-- C5 counterexample: on the empty-source path the returned SyncResult has
its end time set but its duration still unset, refuting "end time and
duration set". -/
theorem syncPlaylist_empty_duration_cex :
    ((syncPlaylist modelFuzz srcW svcInert "p" {} 10 25 "d").result.toOption.map
      SyncResult.duration) = some none ∧
    ((syncPlaylist modelFuzz srcW svcInert "p" {} 10 25 "d").result.toOption.map
      SyncResult.end_time) = some (some 25) := by
  with_unfolding_all decide

/-- C8 (amended): the sync mode starts as the requested default and is only
ever changed during destination resolution, never after matching begins: the
final mode is "update" when updateExisting is set and a destination playlist
is found by either name, "create" when updateExisting is set and no playlist
is found (even when the requested default was not "create" - the transition
the claim as stated rules out, see the counterexample), and the requested
default otherwise. -/
theorem syncPlaylist_mode_resolution (F : Fuzz) (src : SrcService) (dst : DestService)
    (pid : String) (o : SyncOptions) (t0 t1 : Int) (today : String)
    (sp : Playlist) (ts : List Track) (f1 f2 : Option Playlist)
    (hd : src.get_playlist_details pid = .ok sp)
    (ht : src.get_playlist_tracks pid = .ok ts)
    (hne : ts ≠ [])
    (hf1 : dst.find_playlist_by_name (strOr o.playlist_name sp.name) = .ok f1)
    (hf2 : dst.find_playlist_by_name
      (strOr o.playlist_name sp.name ++ " (from " ++ src.service_name ++ ")") = .ok f2) :
    ∀ r, (syncPlaylist F src dst pid o t0 t1 today).result = .ok r →
      r.sync_mode =
        (if o.update_existing then
          (if f1.isSome ∨ f2.isSome then "update" else "create")
        else (o.sync_mode).getD "create") := by
  intro r hr
  simp only [syncPlaylist, hd, ht, if_neg hne] at hr
  by_cases hu : o.update_existing
  · rcases hof1 : f1 with _ | dp1
    · rcases hof2 : f2 with _ | dp2
      · subst hof1; subst hof2
        simp only [resolveDestination, hu, if_true, hf1, hf2] at hr
        simp only [hu, if_true, Option.isSome_none, or_self, if_false]
        split at hr
        · exact (congrArg SyncResult.sync_mode (Except.ok.inj hr)).symm
        · unfold createWriteBack at hr
          split at hr
          · cases hr
          · exact (congrArg SyncResult.sync_mode (Except.ok.inj hr)).symm
      · subst hof1; subst hof2
        simp only [resolveDestination, hu, if_true, hf1, hf2] at hr
        simp only [hu, if_true, Option.isSome_none, Option.isSome_some, or_true, if_true]
        split at hr
        · exact (congrArg SyncResult.sync_mode (Except.ok.inj hr)).symm
        · split at hr
          · unfold updateWriteBack at hr
            split at hr
            · cases hr
            · dsimp only [] at hr
              split at hr
              · exact (congrArg SyncResult.sync_mode (Except.ok.inj hr)).symm
              · split at hr
                · cases hr
                · exact (congrArg SyncResult.sync_mode (Except.ok.inj hr)).symm
          · simp at *
    · subst hof1
      simp only [resolveDestination, hu, if_true, hf1] at hr
      simp only [hu, if_true, Option.isSome_some, true_or, if_true]
      split at hr
      · exact (congrArg SyncResult.sync_mode (Except.ok.inj hr)).symm
      · split at hr
        · unfold updateWriteBack at hr
          split at hr
          · cases hr
          · dsimp only [] at hr
            split at hr
            · exact (congrArg SyncResult.sync_mode (Except.ok.inj hr)).symm
            · split at hr
              · cases hr
              · exact (congrArg SyncResult.sync_mode (Except.ok.inj hr)).symm
        · simp at *
  · simp only [Bool.not_eq_true] at hu
    simp only [resolveDestination, hu, Bool.false_eq_true, if_false] at hr
    simp only [hu, Bool.false_eq_true, if_false]
    split at hr
    · exact (congrArg SyncResult.sync_mode (Except.ok.inj hr)).symm
    · unfold createWriteBack at hr
      split at hr
      · cases hr
      · exact (congrArg SyncResult.sync_mode (Except.ok.inj hr)).symm

/-- C8 counterexample: with requested default mode "update" and
updateExisting set, when no destination playlist is found by either name the
final sync mode is "create" - a transition the claim as stated (only create
to update) does not allow. -/
theorem syncPlaylist_mode_cex :
    oU.sync_mode = some "update" ∧
    ((syncPlaylist modelFuzz srcOne svcInert "p" oU 0 5 "d").result.toOption.map
      SyncResult.sync_mode) = some "create" ∧
    ("create" : String) ≠ "update" := by
  refine ⟨rfl, by with_unfolding_all decide, by decide⟩

theorem syncPlaylist_mode_resolution_witness : rModeW.sync_mode = "update" := by
  have h := syncPlaylist_mode_resolution modelFuzz srcOne dstFind "p" oU 0 5 "d"
    { id := "p", name := "P" } [tOne] (some dpW) none rfl rfl
    (List.cons_ne_nil _ _) rfl rfl rModeW (by with_unfolding_all exact rfl)
  simpa using h

theorem matchByIsrc_calls (F : Fuzz) (svc : DestService) (t : Track) :
    ∀ c ∈ (matchByIsrc F svc t).2, isSearchCall c := by
  unfold matchByIsrc
  split
  · simp
  · dsimp only []
    split <;> simp_all [isSearchCall]

theorem matchByExactSearch_calls (F : Fuzz) (svc : DestService) (t : Track) :
    ∀ c ∈ (matchByExactSearch F svc t).2, isSearchCall c := by
  unfold matchByExactSearch
  dsimp only []
  split <;> simp_all [isSearchCall]

theorem fuzzyLoop_calls (F : Fuzz) (svc : DestService) (t : Track) :
    ∀ qs acc, ∀ c ∈ (fuzzyLoop F svc t qs acc).2, isSearchCall c := by
  intro qs
  induction qs with
  | nil => intro acc c hc; simp [fuzzyLoop] at hc
  | cons q qs ih =>
    intro acc c hc
    simp only [fuzzyLoop] at hc
    rcases hs : svc.search_track q 20 with e | results <;> rw [hs] at hc
    · simp at hc
      exact hc ▸ Or.inl ⟨q, 20, rfl⟩
    · simp only [List.mem_cons] at hc
      rcases hc with rfl | hc
      · exact Or.inl ⟨q, 20, rfl⟩
      · exact ih _ c hc

theorem matchByFuzzySearch_calls (F : Fuzz) (svc : DestService) (t : Track) :
    ∀ c ∈ (matchByFuzzySearch F svc t).2, isSearchCall c := by
  unfold matchByFuzzySearch
  split <;> rename_i heq
  · intro c hc
    have := fuzzyLoop_calls F svc t (fuzzyQueries t) (none, 0)
    rw [heq] at this
    exact this c hc
  · intro c hc
    have := fuzzyLoop_calls F svc t (fuzzyQueries t) (none, 0)
    rw [heq] at this
    exact this c hc

theorem matchTrack_calls (F : Fuzz) (svc : DestService) (t : Track) :
    ∀ c ∈ (matchTrack F svc t).2, isSearchCall c := by
  have hI : ∀ c ∈ (if optStrTruthy t.isrc then matchByIsrc F svc t
      else ((none : Option Track), ([] : List DestCall))).2, isSearchCall c := by
    split
    · exact matchByIsrc_calls F svc t
    · simp
  have hE := matchByExactSearch_calls F svc t
  have hZ := matchByFuzzySearch_calls F svc t
  intro c hc
  unfold matchTrack at hc
  dsimp only [] at hc
  split at hc
  · exact hI c hc
  · split at hc
    · rcases List.mem_append.mp hc with h | h
      · exact hI c h
      · exact hE c h
    · rcases List.mem_append.mp hc with h | h
      · rcases List.mem_append.mp h with h2 | h2
        · exact hI c h2
        · exact hE c h2
      · exact hZ c h

theorem matchLoop_calls (F : Fuzz) (svc : DestService) (total : Nat) (onP : Bool) :
    ∀ fuel ts done, ∀ c ∈ (matchLoop F svc total onP fuel ts done).2.1, isSearchCall c := by
  intro fuel
  induction fuel with
  | zero => intro ts done c hc; simp [matchLoop] at hc
  | succ n ih =>
    intro ts done c hc
    by_cases hts : ts = []
    · subst hts; simp [matchLoop] at hc
    · simp only [matchLoop, if_neg hts] at hc
      rcases List.mem_append.mp hc with h | h
      · simp only [List.mem_flatten, List.mem_map] at h
        rcases h with ⟨l, ⟨⟨pr, ⟨tr, _, rfl⟩, rfl⟩, hcl⟩⟩
        exact matchTrack_calls F svc tr c hcl
      · exact ih (ts.drop 15) _ c h

theorem matchAllTracks_calls (F : Fuzz) (svc : DestService) (ts : List Track) (onP : Bool) :
    ∀ c ∈ (matchAllTracks F svc ts onP).2.1, isSearchCall c :=
  matchLoop_calls F svc ts.length onP ts.length ts 0

theorem collectMatched_length_eq :
    ∀ rs : List MatchResult, (collectMatched rs).1.length = (collectMatched rs).2.1.length := by
  intro rs
  induction rs with
  | nil => rfl
  | cons r rest ih =>
    simp only [collectMatched]
    rcases r.destination_track with _ | d <;> simpa using ih

theorem filterNew_eq_filter_zip (sigs : List String) :
    ∀ (ids : List String) (mrs : List MatchResult), ids.length = mrs.length →
      filterNew sigs ids mrs =
        ((ids.zip mrs).filter
          (fun p => !sigs.contains (trackSignature p.2.source_track))).map Prod.fst := by
  intro ids
  induction ids with
  | nil => intro mrs _; rfl
  | cons tid rest ih =>
    intro mrs hlen
    cases mrs with
    | nil => simp at hlen
    | cons r rs =>
      have hrec := ih rs (by simpa using hlen)
      by_cases hs : trackSignature r.source_track ∈ sigs <;>
        simp [filterNew, List.filter_cons, hs, hrec, List.elem_iff]

theorem not_search_addTracks (p : String) (ids : List String) :
    ¬ isSearchCall (DestCall.addTracks p ids) := by
  rintro (⟨q, l, h⟩ | ⟨i, h⟩) <;> cases h

theorem not_search_createPlaylist (n d : String) (ids : List String) :
    ¬ isSearchCall (DestCall.createPlaylist n d ids) := by
  rintro (⟨q, l, h⟩ | ⟨i, h⟩) <;> cases h

theorem resolveDestination_update (dst : DestService) (srcName : String)
    (o : SyncOptions) (spName : String) (dp : Playlist)
    (hu : o.update_existing = true)
    (hfound : dst.find_playlist_by_name (strOr o.playlist_name spName) = .ok (some dp) ∨
      (dst.find_playlist_by_name (strOr o.playlist_name spName) = .ok none ∧
       dst.find_playlist_by_name
         (strOr o.playlist_name spName ++ " (from " ++ srcName ++ ")") = .ok (some dp))) :
    (resolveDestination dst srcName o spName).1 = .ok (some dp, dp.name, some "update") ∧
    (∀ c ∈ (resolveDestination dst srcName o spName).2,
      ∃ n, c = DestCall.findPlaylistByName n) := by
  rcases hfound with h1 | ⟨h1, h2⟩
  · simp only [resolveDestination, hu, if_true, h1]
    refine ⟨trivial, ?_⟩
    intro c hc
    simp only [List.mem_singleton] at hc
    exact ⟨_, hc⟩
  · simp only [resolveDestination, hu, if_true, h1, h2]
    refine ⟨trivial, ?_⟩
    intro c hc
    simp only [List.mem_cons, List.not_mem_nil, or_false] at hc
    rcases hc with rfl | rfl
    · exact ⟨_, rfl⟩
    · exact ⟨_, rfl⟩

theorem resolveDestination_create (dst : DestService) (srcName : String)
    (o : SyncOptions) (spName : String)
    (hcreate : o.update_existing = false ∨
      (o.update_existing = true ∧
       dst.find_playlist_by_name (strOr o.playlist_name spName) = .ok none ∧
       dst.find_playlist_by_name
         (strOr o.playlist_name spName ++ " (from " ++ srcName ++ ")") = .ok none)) :
    ∃ pname modeUpd,
      (resolveDestination dst srcName o spName).1 = .ok (none, pname, modeUpd) := by
  rcases hcreate with h1 | ⟨h1, h2, h3⟩
  · refine ⟨strOr o.playlist_name (spName ++ " (from " ++ srcName ++ ")"), none, ?_⟩
    simp only [resolveDestination, h1, Bool.false_eq_true, if_false]
  · refine ⟨strOr o.playlist_name spName, some "create", ?_⟩
    simp only [resolveDestination, h1, if_true, h2, h3]

/-- C2: in update mode - entered whenever updateExisting is set and the
destination playlist is found by either the literal name or the suffixed
name - the only add-tracks call syncPlaylist can make carries exactly the
ids whose source-track signature is not already present in the signature set
built from the existing destination tracks (the filter compares source-track
signatures only, so it fires even when the destination search returned a
different-ID candidate); when nothing survives the filter, no add-tracks and
no create-playlist call is made and the found destination playlist is kept
unchanged in the result. -/
theorem syncPlaylist_update_dedup (F : Fuzz) (src : SrcService) (dst : DestService)
    (pid : String) (o : SyncOptions) (t0 t1 : Int) (today : String)
    (sp dp : Playlist) (ts existing : List Track)
    (hd : src.get_playlist_details pid = .ok sp)
    (ht : src.get_playlist_tracks pid = .ok ts)
    (hne : ts ≠ [])
    (hu : o.update_existing = true)
    (hfound : dst.find_playlist_by_name (strOr o.playlist_name sp.name) = .ok (some dp) ∨
      (dst.find_playlist_by_name (strOr o.playlist_name sp.name) = .ok none ∧
       dst.find_playlist_by_name
         (strOr o.playlist_name sp.name ++ " (from " ++ src.service_name ++ ")") =
           .ok (some dp)))
    (hx : dst.get_playlist_tracks dp.id = .ok existing) :
    (∀ plid ids, DestCall.addTracks plid ids ∈ (syncPlaylist F src dst pid o t0 t1 today).calls →
      plid = dp.id ∧
      ids = filterNew (existing.map trackSignature)
        (collectMatched (matchAllTracks F dst ts o.on_progress).1).1
        (collectMatched (matchAllTracks F dst ts o.on_progress).1).2.1) ∧
    (filterNew (existing.map trackSignature)
        (collectMatched (matchAllTracks F dst ts o.on_progress).1).1
        (collectMatched (matchAllTracks F dst ts o.on_progress).1).2.1 = [] →
      (∀ plid ids,
        DestCall.addTracks plid ids ∉ (syncPlaylist F src dst pid o t0 t1 today).calls) ∧
      (∀ n d ids2,
        DestCall.createPlaylist n d ids2 ∉ (syncPlaylist F src dst pid o t0 t1 today).calls) ∧
      ((collectMatched (matchAllTracks F dst ts o.on_progress).1).1 ≠ [] →
        ∃ r, (syncPlaylist F src dst pid o t0 t1 today).result = .ok r ∧
          r.destination_playlist = some dp ∧ r.matched_tracks = 0)) ∧
    (filterNew (existing.map trackSignature)
        (collectMatched (matchAllTracks F dst ts o.on_progress).1).1
        (collectMatched (matchAllTracks F dst ts o.on_progress).1).2.1 =
      (((collectMatched (matchAllTracks F dst ts o.on_progress).1).1.zip
          (collectMatched (matchAllTracks F dst ts o.on_progress).1).2.1).filter
        (fun p => !(existing.map trackSignature).contains
          (trackSignature p.2.source_track))).map Prod.fst) := by
  have hshape := matchAllTracks_calls F dst ts o.on_progress
  have hresolve := resolveDestination_update dst src.service_name o sp.name dp hu hfound
  rcases hres : resolveDestination dst src.service_name o sp.name with ⟨v, rcalls⟩
  rw [hres] at hresolve
  dsimp only [] at hresolve
  obtain ⟨hv, hrshape⟩ := hresolve
  subst hv
  refine ⟨?_, ?_, filterNew_eq_filter_zip _ _ _ (collectMatched_length_eq _)⟩
  · intro plid ids hmem
    simp only [syncPlaylist, hd, ht, hres, if_neg hne, Option.getD_some, if_true] at hmem
    by_cases hmids : (collectMatched (matchAllTracks F dst ts o.on_progress).1).1 = []
    · rw [if_pos hmids] at hmem
      dsimp only [] at hmem
      simp only [List.append_eq, List.mem_append] at hmem
      rcases hmem with h | h
      · rcases hrshape _ h with ⟨n, hn⟩
        cases hn
      · exact absurd (hshape _ h) (not_search_addTracks _ _)
    · rw [if_neg hmids] at hmem
      unfold updateWriteBack at hmem
      rw [hx] at hmem
      dsimp only [] at hmem
      by_cases hnew : filterNew (existing.map trackSignature)
          (collectMatched (matchAllTracks F dst ts o.on_progress).1).1
          (collectMatched (matchAllTracks F dst ts o.on_progress).1).2.1 = []
      · rw [if_pos hnew] at hmem
        simp only [List.append_eq, List.mem_append, List.mem_singleton] at hmem
        rcases hmem with (h | h) | h
        · rcases hrshape _ h with ⟨n, hn⟩
          cases hn
        · exact absurd (hshape _ h) (not_search_addTracks _ _)
        · cases h
      · rw [if_neg hnew] at hmem
        rcases hadd : dst.add_tracks_to_playlist dp.id (filterNew (existing.map trackSignature)
            (collectMatched (matchAllTracks F dst ts o.on_progress).1).1
            (collectMatched (matchAllTracks F dst ts o.on_progress).1).2.1) with e | pl <;>
          rw [hadd] at hmem <;>
          dsimp only [] at hmem <;>
          simp only [List.append_eq, List.mem_append, List.mem_singleton, List.mem_cons] at hmem
        · rcases hmem with (h | h) | (h | h | h)
          · rcases hrshape _ h with ⟨n, hn⟩
            cases hn
          · exact absurd (hshape _ h) (not_search_addTracks _ _)
          · cases h
          · injection h with h1 h2
            exact ⟨h1, h2⟩
          · simp at h
        · rcases hmem with (h | h) | (h | h | h)
          · rcases hrshape _ h with ⟨n, hn⟩
            cases hn
          · exact absurd (hshape _ h) (not_search_addTracks _ _)
          · cases h
          · injection h with h1 h2
            exact ⟨h1, h2⟩
          · simp at h
  · intro hnew
    refine ⟨?_, ?_, ?_⟩
    · intro plid ids hmem
      simp only [syncPlaylist, hd, ht, hres, if_neg hne, Option.getD_some, if_true] at hmem
      by_cases hmids : (collectMatched (matchAllTracks F dst ts o.on_progress).1).1 = []
      · rw [if_pos hmids] at hmem
        dsimp only [] at hmem
        simp only [List.append_eq, List.mem_append] at hmem
        rcases hmem with h | h
        · rcases hrshape _ h with ⟨n, hn⟩
          cases hn
        · exact absurd (hshape _ h) (not_search_addTracks _ _)
      · rw [if_neg hmids] at hmem
        unfold updateWriteBack at hmem
        rw [hx] at hmem
        dsimp only [] at hmem
        rw [if_pos hnew] at hmem
        simp only [List.append_eq, List.mem_append, List.mem_singleton] at hmem
        rcases hmem with (h | h) | h
        · rcases hrshape _ h with ⟨n, hn⟩
          cases hn
        · exact absurd (hshape _ h) (not_search_addTracks _ _)
        · cases h
    · intro n d ids2 hmem
      simp only [syncPlaylist, hd, ht, hres, if_neg hne, Option.getD_some, if_true] at hmem
      by_cases hmids : (collectMatched (matchAllTracks F dst ts o.on_progress).1).1 = []
      · rw [if_pos hmids] at hmem
        dsimp only [] at hmem
        simp only [List.append_eq, List.mem_append] at hmem
        rcases hmem with h | h
        · rcases hrshape _ h with ⟨n2, hn⟩
          cases hn
        · exact absurd (hshape _ h) (not_search_createPlaylist _ _ _)
      · rw [if_neg hmids] at hmem
        unfold updateWriteBack at hmem
        rw [hx] at hmem
        dsimp only [] at hmem
        rw [if_pos hnew] at hmem
        simp only [List.append_eq, List.mem_append, List.mem_singleton] at hmem
        rcases hmem with (h | h) | h
        · rcases hrshape _ h with ⟨n2, hn⟩
          cases hn
        · exact absurd (hshape _ h) (not_search_createPlaylist _ _ _)
        · cases h
    · intro hmids
      simp only [syncPlaylist, hd, ht, hres, if_neg hne, Option.getD_some, if_true]
      rw [if_neg hmids]
      unfold updateWriteBack
      rw [hx]
      dsimp only []
      rw [if_pos hnew]
      exact ⟨_, rfl, rfl, rfl⟩

theorem syncPlaylist_update_dedup_witness :
    DestCall.addTracks "dp" ["c2"] ∈
      (syncPlaylist modelFuzz srcU dstU "p" { update_existing := true } 0 5 "d").calls ∧
    ("dp" = dpU.id ∧
     ["c2"] = filterNew ([existingDup].map trackSignature)
       (collectMatched (matchAllTracks modelFuzz dstU [tDup, tNew] false).1).1
       (collectMatched (matchAllTracks modelFuzz dstU [tDup, tNew] false).1).2.1) :=
  ⟨by with_unfolding_all decide,
   (syncPlaylist_update_dedup modelFuzz srcU dstU "p" { update_existing := true } 0 5 "d"
      spU dpU [tDup, tNew] [existingDup] rfl rfl (by decide) rfl
      (Or.inl (by with_unfolding_all exact rfl)) (by with_unfolding_all exact rfl)).1 "dp" ["c2"]
      (by with_unfolding_all decide)⟩

theorem collectMatched_count (rs : List MatchResult) :
    (collectMatched rs).1.length =
      (rs.filter (fun mr => mr.destination_track.isSome)).length := by
  induction rs with
  | nil => rfl
  | cons r rest ih =>
    simp only [collectMatched, List.filter_cons]
    rcases hdt : r.destination_track with _ | d <;> simp [hdt, ih]

/-- C3: after write-back, in update mode (entered via either destination
lookup, literal or suffixed name) the matched-track count of the returned
SyncResult equals the number of ids actually newly added (0 when every
matched track was a signature duplicate), while in create mode (updateExisting
unset, or set with no destination playlist found by either name) it equals
the number of MatchResults carrying a destination track. -/
theorem syncPlaylist_matched_count (F : Fuzz) (src : SrcService) (dst : DestService)
    (pid : String) (o : SyncOptions) (t0 t1 : Int) (today : String)
    (sp dp : Playlist) (ts existing : List Track)
    (hd : src.get_playlist_details pid = .ok sp)
    (ht : src.get_playlist_tracks pid = .ok ts)
    (hne : ts ≠ []) :
    (o.update_existing = true →
     (dst.find_playlist_by_name (strOr o.playlist_name sp.name) = .ok (some dp) ∨
      (dst.find_playlist_by_name (strOr o.playlist_name sp.name) = .ok none ∧
       dst.find_playlist_by_name
         (strOr o.playlist_name sp.name ++ " (from " ++ src.service_name ++ ")") =
           .ok (some dp))) →
     dst.get_playlist_tracks dp.id = .ok existing →
     ∀ r, (syncPlaylist F src dst pid o t0 t1 today).result = .ok r →
       r.matched_tracks = (filterNew (existing.map trackSignature)
         (collectMatched (matchAllTracks F dst ts o.on_progress).1).1
         (collectMatched (matchAllTracks F dst ts o.on_progress).1).2.1).length) ∧
    ((o.update_existing = false ∨
      (o.update_existing = true ∧
       dst.find_playlist_by_name (strOr o.playlist_name sp.name) = .ok none ∧
       dst.find_playlist_by_name
         (strOr o.playlist_name sp.name ++ " (from " ++ src.service_name ++ ")") =
           .ok none)) →
     ∀ r, (syncPlaylist F src dst pid o t0 t1 today).result = .ok r →
       r.matched_tracks =
         ((matchAllTracks F dst ts o.on_progress).1.filter
           (fun mr => mr.destination_track.isSome)).length) := by
  constructor
  · intro hu hfound hx r hr
    have hresolve := resolveDestination_update dst src.service_name o sp.name dp hu hfound
    rcases hres : resolveDestination dst src.service_name o sp.name with ⟨v, rcalls⟩
    rw [hres] at hresolve
    dsimp only [] at hresolve
    obtain ⟨hv, _⟩ := hresolve
    subst hv
    simp only [syncPlaylist, hd, ht, hres, if_neg hne, Option.getD_some, if_true] at hr
    by_cases hmids : (collectMatched (matchAllTracks F dst ts o.on_progress).1).1 = []
    · rw [if_pos hmids] at hr
      dsimp only [] at hr
      have hrr := Except.ok.inj hr
      rw [← hrr, hmids]
      simp [filterNew]
    · rw [if_neg hmids] at hr
      unfold updateWriteBack at hr
      rw [hx] at hr
      dsimp only [] at hr
      by_cases hnewv : filterNew (existing.map trackSignature)
          (collectMatched (matchAllTracks F dst ts o.on_progress).1).1
          (collectMatched (matchAllTracks F dst ts o.on_progress).1).2.1 = []
      · rw [if_pos hnewv] at hr
        have hrr := Except.ok.inj hr
        rw [← hrr, hnewv]
        rfl
      · rw [if_neg hnewv] at hr
        rcases hadd : dst.add_tracks_to_playlist dp.id (filterNew (existing.map trackSignature)
            (collectMatched (matchAllTracks F dst ts o.on_progress).1).1
            (collectMatched (matchAllTracks F dst ts o.on_progress).1).2.1) with e | pl <;>
          rw [hadd] at hr
        · cases hr
        · have hrr := Except.ok.inj hr
          rw [← hrr]
  · intro hcreate r hr
    rcases hcreate with hu | ⟨hu, h1, h2⟩
    · simp only [syncPlaylist, hd, ht, resolveDestination, hu, Bool.false_eq_true, if_false,
        if_neg hne, Option.getD_some] at hr
      by_cases hmids : (collectMatched (matchAllTracks F dst ts o.on_progress).1).1 = []
      · rw [if_pos hmids] at hr
        dsimp only [] at hr
        have hrr := Except.ok.inj hr
        rw [← hrr, ← collectMatched_count]
      · rw [if_neg hmids] at hr
        dsimp only [] at hr
        unfold createWriteBack at hr
        rcases hcr : dst.create_playlist
            (strOr o.playlist_name (sp.name ++ " (from " ++ src.service_name ++ ")"))
            (strOr o.playlist_description ("Synced from " ++ src.service_name ++ " on " ++ today))
            (collectMatched (matchAllTracks F dst ts o.on_progress).1).1 with e | pl <;>
          rw [hcr] at hr
        · cases hr
        · have hrr := Except.ok.inj hr
          rw [← hrr, ← collectMatched_count]
    · simp only [syncPlaylist, hd, ht, resolveDestination, hu, if_true, h1, h2,
        if_neg hne, Option.getD_some] at hr
      by_cases hmids : (collectMatched (matchAllTracks F dst ts o.on_progress).1).1 = []
      · rw [if_pos hmids] at hr
        dsimp only [] at hr
        have hrr := Except.ok.inj hr
        rw [← hrr, ← collectMatched_count]
      · rw [if_neg hmids] at hr
        dsimp only [] at hr
        unfold createWriteBack at hr
        rcases hcr : dst.create_playlist (strOr o.playlist_name sp.name)
            (strOr o.playlist_description ("Synced from " ++ src.service_name ++ " on " ++ today))
            (collectMatched (matchAllTracks F dst ts o.on_progress).1).1 with e | pl <;>
          rw [hcr] at hr
        · cases hr
        · have hrr := Except.ok.inj hr
          rw [← hrr, ← collectMatched_count]

theorem syncPlaylist_matched_count_witness :
    rDupW.matched_tracks = (filterNew ([existingDup].map trackSignature)
      (collectMatched (matchAllTracks modelFuzz dstU [tDup] false).1).1
      (collectMatched (matchAllTracks modelFuzz dstU [tDup] false).1).2.1).length ∧
    rDupW.matched_tracks = 0 ∧
    (collectMatched (matchAllTracks modelFuzz dstU [tDup] false).1).1.length = 1 :=
  ⟨(syncPlaylist_matched_count modelFuzz srcU1 dstU "p" { update_existing := true } 0 5 "d"
      spU dpU [tDup] [existingDup] rfl rfl (by decide)).1 rfl
      (Or.inl (by with_unfolding_all exact rfl)) (by with_unfolding_all exact rfl) rDupW
      (by with_unfolding_all exact rfl),
   rfl, by with_unfolding_all decide⟩

theorem collapseGo_mem_space :
    ∀ (l : List Char) (b : Bool), ∀ c ∈ collapseGo b l, isPyWS c = true → c = ' ' := by
  intro l
  induction l with
  | nil => intro b c hc; simp [collapseGo] at hc
  | cons a rest ih =>
    intro b c hc hw
    by_cases ha : isPyWS a
    · cases b
      · simp only [collapseGo, ha, if_true, Bool.false_eq_true, if_false] at hc
        rcases List.mem_cons.mp hc with rfl | hc2
        · rfl
        · exact ih true c hc2 hw
      · simp only [collapseGo, ha, if_true] at hc
        exact ih true c hc hw
    · cases b <;>
        simp only [collapseGo, ha, Bool.false_eq_true, if_false, if_true] at hc <;>
        rcases List.mem_cons.mp hc with rfl | hc2
      · exact absurd hw (by simp [ha])
      · exact ih false c hc2 hw
      · exact absurd hw (by simp [ha])
      · exact ih false c hc2 hw

theorem collapseGo_true_head :
    ∀ l : List Char, ∀ y ∈ (collapseGo true l).head?, isPyWS y = false := by
  intro l
  induction l with
  | nil => intro y hy; simp [collapseGo] at hy
  | cons a rest ih =>
    intro y hy
    by_cases ha : isPyWS a
    · simp only [collapseGo, ha, if_true] at hy
      exact ih y hy
    · simp only [collapseGo, ha, if_false, Bool.false_eq_true] at hy
      simp only [List.head?_cons, Option.mem_def, Option.some.injEq] at hy
      subst hy
      simpa using ha

theorem collapseGo_chain :
    ∀ (l : List Char) (b : Bool), noTwoWS (collapseGo b l) := by
  intro l
  induction l with
  | nil => intro b; simp [collapseGo, noTwoWS]
  | cons a rest ih =>
    intro b
    by_cases ha : isPyWS a
    · cases b
      · simp only [collapseGo, ha, if_true, Bool.false_eq_true, if_false]
        refine List.chain'_cons'.mpr ⟨?_, ih true⟩
        intro y hy
        have := collapseGo_true_head rest y hy
        simp [this]
      · simp only [collapseGo, ha, if_true]
        exact ih true
    · cases b <;> simp only [collapseGo, ha, Bool.false_eq_true, if_false, if_true] <;>
        refine List.chain'_cons'.mpr ⟨?_, ih false⟩ <;>
        intro y hy <;> simp [ha]

theorem collapseGo_fixed :
    ∀ l : List Char, (∀ c ∈ l, isPyWS c = true → c = ' ') → noTwoWS l →
      collapseGo false l = l ∧
      ((∀ y ∈ l.head?, isPyWS y = false) → collapseGo true l = l) := by
  intro l
  induction l with
  | nil => intro _ _; exact ⟨rfl, fun _ => rfl⟩
  | cons a rest ih =>
    intro hmem hchain
    have hrest := ih (fun c hc => hmem c (List.mem_cons_of_mem a hc))
      ((List.chain'_cons'.mp hchain).2)
    by_cases ha : isPyWS a
    · have haSp : a = ' ' := hmem a (List.mem_cons_self a rest) ha
      have hheadrest : ∀ y ∈ rest.head?, isPyWS y = false := by
        intro y hy
        have := (List.chain'_cons'.mp hchain).1 y hy
        by_contra hcon
        simp only [Bool.not_eq_false] at hcon
        exact this ⟨ha, hcon⟩
      constructor
      · simp only [collapseGo, ha, if_true, Bool.false_eq_true, if_false]
        rw [hrest.2 hheadrest, haSp]
      · intro hhead
        have := hhead a (by simp)
        rw [this] at ha
        cases ha
    · constructor
      · simp only [collapseGo, ha, Bool.false_eq_true, if_false]
        rw [hrest.1]
      · intro _
        simp only [collapseGo, ha, Bool.false_eq_true, if_false]
        rw [hrest.1]

theorem stripChars_eq_rdropWhile (l : List Char) :
    stripChars l = List.rdropWhile isPyWS (List.dropWhile isPyWS l) := rfl

theorem stripChars_infix_self (l : List Char) : stripChars l <:+: l := by
  rw [stripChars_eq_rdropWhile]
  have hpre := List.rdropWhile_prefix isPyWS (List.dropWhile isPyWS l)
  have h1 := List.IsPrefix.isInfix hpre
  have hsuf := List.dropWhile_suffix isPyWS (l := l)
  have h2 := List.IsSuffix.isInfix hsuf
  exact List.IsInfix.trans h1 h2

theorem head?_dropWhile_not (p : Char → Bool) (l : List Char) :
    ∀ y ∈ (List.dropWhile p l).head?, p y = false := by
  induction l with
  | nil => simp
  | cons a rest ih =>
    intro y hy
    by_cases ha : p a
    · rw [List.dropWhile_cons, if_pos ha] at hy
      exact ih y hy
    · rw [List.dropWhile_cons, if_neg ha] at hy
      simp only [List.head?_cons, Option.mem_def, Option.some.injEq] at hy
      subst hy
      simpa using ha

theorem dropWhile_rdropWhile_dropWhile (l : List Char) :
    List.dropWhile isPyWS (List.rdropWhile isPyWS (List.dropWhile isPyWS l)) =
      List.rdropWhile isPyWS (List.dropWhile isPyWS l) := by
  rcases hm : List.dropWhile isPyWS l with _ | ⟨c, t⟩
  · simp [List.rdropWhile]
  · have hc : isPyWS c = false := by
      have := head?_dropWhile_not isPyWS l c
      rw [hm] at this
      exact this (by simp)
    rcases hp : List.rdropWhile isPyWS (c :: t) with _ | ⟨d, t2⟩
    · rfl
    · have hpre := List.rdropWhile_prefix isPyWS (c :: t)
      rw [hp] at hpre
      have hd : d = c := (List.cons_prefix_cons.mp hpre).1
      subst hd
      simp [List.dropWhile, hc]

theorem stripChars_idem (l : List Char) : stripChars (stripChars l) = stripChars l := by
  rw [stripChars_eq_rdropWhile, stripChars_eq_rdropWhile l,
    dropWhile_rdropWhile_dropWhile, List.rdropWhile_idempotent]

theorem stripChars_head (l : List Char) :
    ∀ y ∈ (stripChars l).head?, isPyWS y = false := by
  intro y hy
  rcases hs : stripChars l with _ | ⟨c, t⟩
  · rw [hs] at hy; simp at hy
  · rw [hs] at hy
    simp only [List.head?_cons, Option.mem_def, Option.some.injEq] at hy
    subst hy
    rw [stripChars_eq_rdropWhile] at hs
    rcases hm : List.dropWhile isPyWS l with _ | ⟨w, t2⟩
    · rw [hm] at hs; simp [List.rdropWhile] at hs
    · rw [hm] at hs
      have hpre := List.rdropWhile_prefix isPyWS (w :: t2)
      rw [hs] at hpre
      have hyw : c = w := (List.cons_prefix_cons.mp hpre).1
      subst hyw
      have := head?_dropWhile_not isPyWS l c
      rw [hm] at this
      exact this (by simp)

theorem collapseStrip_idem (l : List Char) :
    collapseStrip (collapseStrip l) = collapseStrip l := by
  unfold collapseStrip
  have hmem : ∀ c ∈ stripChars (collapseWS l), isPyWS c = true → c = ' ' := by
    intro c hc
    have hinf := stripChars_infix_self (collapseWS l)
    exact collapseGo_mem_space l false c (List.IsInfix.subset hinf hc)
  have hchain : noTwoWS (stripChars (collapseWS l)) :=
    List.Chain'.infix (collapseGo_chain l false) (stripChars_infix_self (collapseWS l))
  have hfix : collapseWS (stripChars (collapseWS l)) = stripChars (collapseWS l) :=
    (collapseGo_fixed _ hmem hchain).1
  rw [hfix, stripChars_idem]

theorem cleanTrackName_norm (s : String) :
    collapseStrip (cleanTrackName s).toList = (cleanTrackName s).toList := by
  unfold cleanTrackName
  by_cases h : s = ""
  · rw [if_pos h]; rfl
  · rw [if_neg h]
    exact collapseStrip_idem _

theorem cleanArtistName_norm (a : String) :
    collapseStrip (cleanArtistName a).toList = (cleanArtistName a).toList := by
  unfold cleanArtistName
  by_cases h : a = ""
  · rw [if_pos h]; rfl
  · rw [if_neg h]
    exact collapseStrip_idem _

/-- C7 (amended): the final whitespace normalisation shared by the two
cleaning functions is idempotent, so cleaning a once-cleaned title or artist
yields the same string whenever the structural steps (parenthesis and
bracket deletion and version-suffix truncation for titles; featured-artist
truncation and leading-The stripping for artists) leave the once-cleaned
string unchanged.  Unconditional idempotence, as claimed, fails: whitespace
collapsing can expose a new version keyword, and stripping one leading "The"
can expose another (see the counterexample). -/
theorem clean_idempotent_of_structural_fixed (s a : String)
    (h1 : subParens (cleanTrackName s).toList = (cleanTrackName s).toList)
    (h2 : subBrackets (cleanTrackName s).toList = (cleanTrackName s).toList)
    (h3 : truncAt matchVersionDashAt (cleanTrackName s).toList = (cleanTrackName s).toList)
    (h4 : truncAt matchVersionBareAt (cleanTrackName s).toList = (cleanTrackName s).toList)
    (h5 : truncAt matchVersionYearAt (cleanTrackName s).toList = (cleanTrackName s).toList)
    (h6 : truncAt matchFeatAt (cleanArtistName a).toList = (cleanArtistName a).toList)
    (h7 : dropLeadingThe (cleanArtistName a).toList = (cleanArtistName a).toList) :
    cleanTrackName (cleanTrackName s) = cleanTrackName s ∧
    cleanArtistName (cleanArtistName a) = cleanArtistName a := by
  constructor
  · set t := cleanTrackName s with ht
    by_cases h0 : t = ""
    · rw [h0]; rfl
    · have hnorm : collapseStrip t.toList = t.toList := by
        rw [ht]; exact cleanTrackName_norm s
      simp only [cleanTrackName, h0, if_false, h1, h2, h3, h4, h5, hnorm]
      rfl
  · set u := cleanArtistName a with hu
    by_cases h0 : u = ""
    · rw [h0]; rfl
    · have hnorm : collapseStrip u.toList = u.toList := by
        rw [hu]; exact cleanArtistName_norm a
      simp only [cleanArtistName, h0, if_false, h6, h7, hnorm]
      rfl

/-- C7 counterexample: cleaning is not idempotent.  For the title
"Song radio  edit" (two spaces) the first pass only collapses whitespace,
and the second pass then truncates at the freshly formed "radio edit"
keyword; for the artist "The The Band" each pass strips one leading "The". -/
theorem clean_not_idempotent_cex :
    cleanTrackName (cleanTrackName "Song radio  edit") ≠ cleanTrackName "Song radio  edit" ∧
    cleanTrackName "Song radio  edit" = "Song radio edit" ∧
    cleanTrackName "Song" = "Song" ∧
    cleanArtistName (cleanArtistName "The The Band") ≠ cleanArtistName "The The Band" ∧
    cleanArtistName "The The Band" = "The Band" ∧
    cleanArtistName "The Band" = "Band" := by
  refine ⟨by decide, by decide, by decide, by decide, by decide, by decide⟩

theorem clean_idempotent_of_structural_fixed_witness :
    cleanTrackName (cleanTrackName "Hello World") = cleanTrackName "Hello World" ∧
    cleanArtistName (cleanArtistName "Queen") = cleanArtistName "Queen" :=
  clean_idempotent_of_structural_fixed "Hello World" "Queen"
    (by decide) (by decide) (by decide) (by decide) (by decide) (by decide) (by decide)

theorem matchTrack_error_containment_witness :
    (matchByIsrc modelFuzz svcBoom tB).1 = none ∧
    (matchByExactSearch modelFuzz svcBoom tB).1 = none ∧
    (matchByFuzzySearch modelFuzz svcBoom tB).1 = none ∧
    (matchTrack modelFuzz svcBoom tB).1 = noMatchResult tB :=
  have h := matchTrack_error_containment modelFuzz svcBoom tB
  have h1 : (matchByIsrc modelFuzz svcBoom tB).1 = none := h.1 _ rfl "down" rfl
  have h2 : (matchByExactSearch modelFuzz svcBoom tB).1 = none := h.2.1 "down" rfl
  have h3 : (matchByFuzzySearch modelFuzz svcBoom tB).1 = none :=
    h.2.2.1 tB.name (by decide) ⟨"down", rfl⟩
  ⟨h1, h2, h3, h.2.2.2 h1 h2 h3⟩
